import Mathlib

/-!
Shallow embedding of the adaptive response-policy engine of PhishGuard
(`Agents/agents/intelligence/reinforcement_learning_agent.py`, plus the
`Database` utility in `Agents/common/utils/database.py` and the
`BaseAgent` error handler in `Agents/common/models/base_agent.py`).

Numeric values (Python floats) are modelled as rationals (`ℚ`); the
fixed-architecture `DQN` network is embedded with its exact layer shapes;
the `collections.deque(maxlen=...)` replay memory is embedded as a list
with FIFO eviction; exceptions are modelled with `Except`/flags that mark
the places where the dynamic Python code can raise.
-/

namespace PhishGuard

/-! ## Engine constants (`ReinforcementLearningAgent.__init__`) -/

/-- `self.state_size = 20`. -/
def state_size : ℕ := 20

/-- `self.action_size = 5`. -/
def action_size : ℕ := 5

/-- `self.memory_size = 10000` (capacity of the replay deque). -/
def memory_size : ℕ := 10000

/-- `self.batch_size = 64`. -/
def batch_size : ℕ := 64

/-- `self.gamma = 0.99`. -/
def gamma : ℚ := 99/100

/-- `self.epsilon_min = 0.01`. -/
def epsilon_min : ℚ := 1/100

/-- `self.epsilon_decay = 0.995`. -/
def epsilon_decay : ℚ := 995/1000

/-- `self.update_frequency = 100`. -/
def update_frequency : ℕ := 100

/-- `self.min_experiences = 1000`. -/
def min_experiences : ℕ := 1000

/-- The action mapping `self.actions` — a dict from index to action name,
    keys `0..4` exactly as written in `__init__`. -/
def actions_map : ℕ → Option String
  | 0 => some "block_sender"
  | 1 => some "quarantine_message"
  | 2 => some "notify_user"
  | 3 => some "monitor_sender"
  | 4 => some "no_action"
  | _ => none

/-! ## RewardCalculator (`_calculate_reward`) -/

/-- Value of the `status` key of an action result
    (`result.get('status')`): the two strings the code compares against,
    or anything else / missing. -/
inductive Status where
  | success
  | failed
  | other
deriving DecidableEq, Repr

/-- Value of the `user_feedback` key (`result.get('user_feedback')`). -/
inductive Feedback where
  | positive
  | negative
  | other
deriving DecidableEq, Repr

/-- The outcome record consumed by `_calculate_reward`: exactly the keys
    the function reads.  `prevented_attack` / `false_positive` model the
    truthiness of `result.get(...)`; `processing_time` models
    `result.get('processing_time', 0)`. -/
structure ActionResult where
  status : Status
  prevented_attack : Bool
  false_positive : Bool
  user_feedback : Feedback
  processing_time : ℚ
deriving DecidableEq, Repr

/-- `_calculate_reward`, transcribed statement by statement:
    start from `0.0`, add/subtract each applicable term in source order. -/
def _calculate_reward (result : ActionResult) : ℚ :=
  let reward : ℚ := 0
  let reward := if result.status = Status.success then reward + 1
                else if result.status = Status.failed then reward - 1
                else reward
  let reward := if result.prevented_attack then reward + 2 else reward
  let reward := if result.false_positive then reward - 2 else reward
  let reward := if result.user_feedback = Feedback.positive then reward + 1/2
                else if result.user_feedback = Feedback.negative then reward - 1/2
                else reward
  let reward := if result.processing_time > 60 then reward - 1/10 else reward
  reward

/-- Spec-side formulation: the sum of the seven independent terms of the
    reward table in §4.4 of the specification. -/
def rewardTermSum (result : ActionResult) : ℚ :=
  (if result.status = Status.success then (1:ℚ) else 0)
  + (if result.status = Status.failed then (-1:ℚ) else 0)
  + (if result.prevented_attack then (2:ℚ) else 0)
  + (if result.false_positive then (-2:ℚ) else 0)
  + (if result.user_feedback = Feedback.positive then (1:ℚ)/2 else 0)
  + (if result.user_feedback = Feedback.negative then (-1:ℚ)/2 else 0)
  + (if result.processing_time > 60 then (-1:ℚ)/10 else 0)

/-! ## ReplayMemory (`deque(maxlen=memory_size)` + `memory.append`) -/

/-- One experience tuple
    (`Experience = namedtuple('Experience', ['state','action','reward','next_state'])`).
    The state vectors are the `List ℚ` produced by `_extract_state`. -/
structure Experience where
  state : List ℚ
  action : ℕ
  reward : ℚ
  next_state : List ℚ
deriving DecidableEq, Repr

/-- Appending to a `collections.deque` with `maxlen = C`: when the deque
    is full the oldest (leftmost) element is discarded.  The list holds
    the oldest element at the head. -/
def dequePush (C : ℕ) (mem : List Experience) (e : Experience) : List Experience :=
  if mem.length < C then mem ++ [e] else (mem.drop (mem.length + 1 - C)) ++ [e]

/-- Pushing a whole sequence of experiences, oldest first. -/
def dequePushAll (C : ℕ) (mem : List Experience) (l : List Experience) : List Experience :=
  l.foldl (dequePush C) mem

/-! ## StateEncoder (`_extract_state`)

`_extract_state` reads five blocks of fields out of the dynamic input
`data` inside one `try`.  Every key access uses `.get` with a default, so
a *missing* key never raises; an exception can still arise when a present
value has the wrong dynamic type (e.g. `len()` of a non-sequence).  Each
block of the embedded signal bag therefore carries the already-extracted
numeric field values plus a `raises` flag marking whether evaluating that
block's expressions raises an exception at runtime. -/

/-- `data.get('email_analysis', {})` fields used by the encoder.
    List-valued fields are modelled by their lengths. -/
structure EmailAnalysis where
  suspicious_indicators : ℕ
  authentication_score : ℚ
  similarity_score : ℚ
  urgency_score : ℚ
  attachments : ℕ
  links : ℕ
  raises : Bool
deriving DecidableEq, Repr

/-- `data.get('domain_analysis', {})` fields used by the encoder. -/
structure DomainAnalysis where
  age_score : ℚ
  reputation_score : ℚ
  similarity_score : ℚ
  is_suspicious : Bool
  raises : Bool
deriving DecidableEq, Repr

/-- `data.get('threat_intelligence', {})` fields used by the encoder
    (`matches` is a Lean keyword, hence the primed field name). -/
structure ThreatIntelligence where
  risk_score : ℚ
  matches' : ℕ
  campaigns : ℕ
  confidence : ℚ
  raises : Bool
deriving DecidableEq, Repr

/-- `data.get('historical_data', {})` fields used by the encoder. -/
structure HistoricalData where
  previous_incidents : ℕ
  success_rate : ℚ
  false_positive_rate : ℚ
  average_response_time : ℚ
  raises : Bool
deriving DecidableEq, Repr

/-- `data.get('user_context', {})` fields used by the encoder. -/
structure UserContext where
  risk_level : ℚ
  is_targeted : Bool
  raises : Bool
deriving DecidableEq, Repr

/-- The signal bag handed to `_extract_state`: the five analysis
    categories the encoder reads. -/
structure SignalBag where
  email_analysis : EmailAnalysis
  domain_analysis : DomainAnalysis
  threat_intelligence : ThreatIntelligence
  historical_data : HistoricalData
  user_context : UserContext
deriving DecidableEq, Repr

/-- The default (all-missing-keys) signal bag, i.e. `data = {}`:
    every `.get` falls back to its default and nothing raises. -/
def emptyBag : SignalBag :=
  { email_analysis := ⟨0, 0, 0, 0, 0, 0, false⟩
    domain_analysis := ⟨0, 0, 0, false, false⟩
    threat_intelligence := ⟨0, 0, 0, 0, false⟩
    historical_data := ⟨0, 0, 0, 0, false⟩
    user_context := ⟨0, false, false⟩ }

/-- Values the email block `state.extend([...])` appends (6 features). -/
def emailBlockVals (e : EmailAnalysis) : List ℚ :=
  [ (e.suspicious_indicators : ℚ) / 10
  , e.authentication_score
  , e.similarity_score
  , e.urgency_score
  , (e.attachments : ℚ) / 5
  , (e.links : ℚ) / 10 ]

/-- Values the domain block appends (4 features). -/
def domainBlockVals (d : DomainAnalysis) : List ℚ :=
  [ d.age_score
  , d.reputation_score
  , d.similarity_score
  , if d.is_suspicious then 1 else 0 ]

/-- Values the threat-intelligence block appends (4 features). -/
def threatBlockVals (t : ThreatIntelligence) : List ℚ :=
  [ t.risk_score
  , (t.matches' : ℚ) / 10
  , (t.campaigns : ℚ) / 5
  , t.confidence ]

/-- Values the historical block appends (4 features). -/
def histBlockVals (h : HistoricalData) : List ℚ :=
  [ (h.previous_incidents : ℚ) / 10
  , h.success_rate
  , h.false_positive_rate
  , h.average_response_time / 3600 ]

/-- Values the user-context block appends (2 features). -/
def userBlockVals (u : UserContext) : List ℚ :=
  [ u.risk_level
  , if u.is_targeted then 1 else 0 ]

/-- The body of the `try` in `_extract_state`: the five blocks are
    evaluated sequentially; the first block that raises aborts the whole
    body (transferring control to the `except` handler), so no later
    block is evaluated and no earlier block's values survive. -/
def extractBlocks (data : SignalBag) : Except Unit (List ℚ) :=
  if data.email_analysis.raises then Except.error () else
  if data.domain_analysis.raises then Except.error () else
  if data.threat_intelligence.raises then Except.error () else
  if data.historical_data.raises then Except.error () else
  if data.user_context.raises then Except.error () else
  Except.ok (emailBlockVals data.email_analysis
    ++ domainBlockVals data.domain_analysis
    ++ threatBlockVals data.threat_intelligence
    ++ histBlockVals data.historical_data
    ++ userBlockVals data.user_context)

/-- The final size adjustment of `_extract_state`: zero-pad when short,
    truncate when long. -/
def padTruncate (state : List ℚ) : List ℚ :=
  if state.length < state_size then state ++ List.replicate (state_size - state.length) 0
  else if state.length > state_size then state.take state_size
  else state

/-- `_extract_state`: on any exception inside the `try`, the `except`
    handler returns `[0.0] * self.state_size`; otherwise the collected
    values are padded/truncated to `state_size`. -/
def _extract_state (data : SignalBag) : List ℚ :=
  match extractBlocks data with
  | Except.error _ => List.replicate state_size 0
  | Except.ok state => padTruncate state

/-- Modelled from the spec (§4.1, claim C2's reading): per-block isolated
    encoding — a block that raises is zero-filled *on its own* and the
    remaining blocks still contribute their values. -/
def encodeSpecIsolated (data : SignalBag) : List ℚ :=
  padTruncate
    ((if data.email_analysis.raises then List.replicate 6 0
      else emailBlockVals data.email_analysis)
     ++ (if data.domain_analysis.raises then List.replicate 4 0
         else domainBlockVals data.domain_analysis)
     ++ (if data.threat_intelligence.raises then List.replicate 4 0
         else threatBlockVals data.threat_intelligence)
     ++ (if data.historical_data.raises then List.replicate 4 0
         else histBlockVals data.historical_data)
     ++ (if data.user_context.raises then List.replicate 2 0
         else userBlockVals data.user_context))

/-! ## DQN (`class DQN(nn.Module)`) -/

/-- `nn.Linear(inDim, outDim)`: a weight matrix and a bias vector. -/
structure LinearLayer (inDim outDim : ℕ) where
  weight : Fin outDim → Fin inDim → ℚ
  bias : Fin outDim → ℚ

/-- Applying a linear layer: `y = W x + b`. -/
def LinearLayer.apply {inDim outDim : ℕ} (l : LinearLayer inDim outDim)
    (x : Fin inDim → ℚ) : Fin outDim → ℚ :=
  fun o => l.bias o + Finset.univ.sum (fun i => l.weight o i * x i)

/-- `nn.ReLU()`. -/
def relu (q : ℚ) : ℚ := max q 0

/-- The `DQN` architecture from the source:
    `fc1 : Linear(state_size, 128)`, `fc2 : Linear(128, 64)`,
    `fc3 : Linear(64, action_size)` with `state_size = 20`,
    `action_size = 5`. -/
structure DQN where
  fc1 : LinearLayer state_size 128
  fc2 : LinearLayer 128 64
  fc3 : LinearLayer 64 action_size

/-- `DQN.forward`: `fc3(relu(fc2(relu(fc1(x)))))`. -/
def DQN.forward (net : DQN) (x : Fin state_size → ℚ) : Fin action_size → ℚ :=
  net.fc3.apply (fun i => relu (net.fc2.apply (fun j => relu (net.fc1.apply x j)) i))

/-- A network with all parameters zero (used as a concrete instance). -/
def zeroNet : DQN :=
  { fc1 := ⟨fun _ _ => 0, fun _ => 0⟩
    fc2 := ⟨fun _ _ => 0, fun _ => 0⟩
    fc3 := ⟨fun _ _ => 0, fun _ => 0⟩ }

/-- `torch.FloatTensor(current_state)` for a length-20 python list:
    the tensor indexed by position (out-of-range reads cannot occur for
    the length-20 lists `_extract_state` produces). -/
def toStateVec (l : List ℚ) : Fin state_size → ℚ :=
  fun i => l.getD i 0

/-! ## ExplorationPolicy (`_select_action`) -/

/-- First index of the maximum of a list — the tie-breaking behaviour of
    `tensor.max(dim)` ("the index of the first maximal value").
    The accumulator keeps the current best (index, value); a later value
    replaces it only when strictly greater. -/
def argmaxFirst (l : List ℚ) : ℕ :=
  (l.enum.foldl
    (fun best cur => if cur.2 > best.2 then (cur.1, cur.2) else best)
    (0, l.headD 0)).1

/-- `_select_action`.  The two random draws of the source are explicit
    inputs: `r` models the `random.random()` result (a value in
    `[0, 1)`), `k` models the `random.randrange(self.action_size)` result
    (an integer in `[0, action_size)`).
    `if random.random() > self.epsilon:` take the greedy branch —
    `policy_net(state).max(1)[1].item()` — else return `k`. -/
def _select_action (epsilon : ℚ) (r : ℚ) (k : ℕ) (policy_net : DQN)
    (state : Fin state_size → ℚ) : ℕ :=
  if r > epsilon then argmaxFirst (List.ofFn (policy_net.forward state)) else k

/-! ## Trainer numerics (`_train`, lines 309-321) -/

/-- Row-wise `tensor.max(1)[0]` over the action dimension of a DQN
    output: the maximum of the five Q-values. -/
def rowMax (q : Fin action_size → ℚ) : ℚ :=
  (List.ofFn q).foldl max (q ⟨0, by decide⟩)

/-- The batched loss value computed by `_train`, transcribed tensor
    operation by tensor operation over the sampled batch:
    `current_q_values = policy_net(states).gather(1, actions)`,
    `next_q_values   = target_net(next_states).max(1)[0]`,
    `expected_q_values = rewards + gamma * next_q_values`,
    `loss = MSELoss()(current_q_values, expected_q_values)` (mean over
    the batch).  `gather(1, a)` on a row is indexing the row at `a`;
    the python action indices are in `[0,5)` so the `toStateVec`-style
    defaulted read `(List.ofFn row).getD a 0` reads the matching entry. -/
def trainBatchLoss (policy_net target_net : DQN) (batch : List Experience) : ℚ :=
  let states := batch.map (fun exp => toStateVec exp.state)
  let actions := batch.map (fun exp => exp.action)
  let rewards := batch.map (fun exp => exp.reward)
  let next_states := batch.map (fun exp => toStateVec exp.next_state)
  let current_q_values :=
    List.zipWith (fun s a => (List.ofFn (policy_net.forward s)).getD a 0) states actions
  let next_q_values := next_states.map (fun s => rowMax (target_net.forward s))
  let expected_q_values := List.zipWith (fun r nq => r + gamma * nq) rewards next_q_values
  (List.zipWith (fun c e => (c - e)^2) current_q_values expected_q_values).sum
    / (batch.length : ℚ)

/-- Spec-side TD target for one experience (§4.6 step 2):
    `reward + gamma * max_a(TargetFunction(next_state))`. -/
def tdTarget (target_net : DQN) (exp : Experience) : ℚ :=
  exp.reward + gamma * rowMax (target_net.forward (toStateVec exp.next_state))

/-- Spec-side per-experience squared error (§4.6 step 3):
    `(PolicyFunction(state)[action] - TD target)^2`. -/
def tdSquaredError (policy_net target_net : DQN) (exp : Experience) : ℚ :=
  ((List.ofFn (policy_net.forward (toStateVec exp.state))).getD exp.action 0
    - tdTarget target_net exp)^2

/-! ## Engine state and the per-incident `process` transition -/

/-- The mutable state of `ReinforcementLearningAgent` that `process`
    touches: the two networks, exploration state, replay memory and the
    step/episode counters. -/
structure AgentState where
  policy_net : DQN
  target_net : DQN
  epsilon : ℚ
  memory : List Experience
  steps : ℕ
  episodes : ℕ

/-- The state right after `__init__` with no checkpoint loaded (the
    "cold" engine): `epsilon = 1.0`, empty memory, zero counters, target
    initialized to a copy of the policy parameters.  (The concrete
    `zeroNet` parameters stand in for torch's random initialization.) -/
def initialAgentState : AgentState :=
  { policy_net := zeroNet
    target_net := zeroNet
    epsilon := 1
    memory := []
    steps := 0
    episodes := 0 }

/-- The per-incident inputs of one `process` call that are external to
    the engine state: the incoming signal bag, the two random draws of
    `_select_action`, the action result returned by `_execute_action` /
    `_wait_for_action_result` (as reward record and as the signal bag
    that `_extract_state(result)` reads), the batch `random.sample`
    picks, an abstract gradient step (the effect of
    `optimizer.step()` on the policy parameters), and failure flags for
    the places that can raise: inside `_train`'s `try` (before the
    epsilon update) and in `db.update_analysis_result`. -/
structure ProcessEnv where
  data : SignalBag
  r : ℚ
  k : ℕ
  outcome : ActionResult
  outcomeBag : SignalBag
  sampleBatch : List Experience → List Experience
  gradStep : DQN → DQN
  trainRaises : Bool
  dbUpdateRaises : Bool

/-- `_train` (its effect on the engine state).  Inside one `try`:
    return unchanged if `len(memory) < batch_size`; otherwise sample a
    batch, run one gradient update on the policy network, then
    `self.epsilon = max(self.epsilon_min, self.epsilon * self.epsilon_decay)`.
    Any exception in the body is caught and logged, leaving whatever had
    already been assigned; `env.trainRaises` models an exception before
    the epsilon assignment, so the state is returned unchanged. -/
def _train (env : ProcessEnv) (s : AgentState) : AgentState :=
  if env.trainRaises then s
  else if s.memory.length < batch_size then s
  else
    { s with
      policy_net := env.gradStep s.policy_net
      epsilon := max epsilon_min (s.epsilon * epsilon_decay) }

/-- What one `process` call raises, if anything. -/
inductive ProcError where
  | dbError
deriving DecidableEq, Repr

/-- The decision record `process` builds and returns. -/
structure Response where
  action_taken : String
  confidence : ℚ
  reward : ℚ
  epsilon : ℚ
  memory_size : ℕ
  total_steps : ℕ
  total_episodes : ℕ
deriving DecidableEq, Repr

/-- Lines 89-111 of `process`: the experience recorded for the
    incident — `current_state` from the input bag, the epsilon-greedy
    `action_idx`, the reward of the outcome, and `next_state` extracted
    from the outcome record. -/
def incidentExperience (env : ProcessEnv) (s : AgentState) : Experience :=
  { state := _extract_state env.data
    action := _select_action s.epsilon env.r env.k s.policy_net
      (toStateVec (_extract_state env.data))
    reward := _calculate_reward env.outcome
    next_state := _extract_state env.outcomeBag }

/-- Line 106: `self.memory.append(Experience(...))`. -/
def afterMemory (env : ProcessEnv) (s : AgentState) : AgentState :=
  { s with memory := dequePush memory_size s.memory (incidentExperience env s) }

/-- Lines 114-115: `if len(self.memory) >= self.min_experiences: await self._train()`. -/
def afterTrain (env : ProcessEnv) (s : AgentState) : AgentState :=
  if s.memory.length ≥ min_experiences then _train env s else s

/-- Line 118: `self.steps += 1`. -/
def afterSteps (s : AgentState) : AgentState :=
  { s with steps := s.steps + 1 }

/-- Lines 119-120: `if self.steps % self.update_frequency == 0:
    self.target_net.load_state_dict(self.policy_net.state_dict())`. -/
def afterSync (s : AgentState) : AgentState :=
  if s.steps % update_frequency = 0
  then { s with target_net := s.policy_net } else s

/-- One `process(data)` call, lines 83-149, as a transition on
    `AgentState`.  Statement order as in the source:
    extract state → select action → execute → reward → next state →
    `memory.append` (`afterMemory`) → conditional `_train`
    (`afterTrain`) → `steps += 1` (`afterSteps`) → conditional target
    sync (`afterSync`) → build response → `db.update_analysis_result` →
    notify → return.  The `except` handler at the bottom calls
    `handle_error` (a log) and then *re-raises*; of the statements in the
    `try` that are not themselves wrapped in an inner `try`, the database
    update is the raising one we model (`_extract_state`,
    `_execute_action`, `_train` and `_notify_agents` all swallow their
    own exceptions).  Mutations made before the raise survive it. -/
def process (env : ProcessEnv) (s : AgentState) :
    AgentState × Except ProcError Response :=
  let exp := incidentExperience env s
  let sFinal := afterSync (afterSteps (afterTrain env (afterMemory env s)))
  let response : Response :=
    { action_taken := (actions_map exp.action).getD ""
      confidence := rowMax (sFinal.policy_net.forward (toStateVec exp.state))
      reward := exp.reward
      epsilon := sFinal.epsilon
      memory_size := sFinal.memory.length
      total_steps := sFinal.steps
      total_episodes := sFinal.episodes }
  if env.dbUpdateRaises then (sFinal, Except.error ProcError.dbError)
  else (sFinal, Except.ok response)

/-! ## ModelPersistence (`_save_model_state` / `_load_model_state`)

Both methods call `db.save_model_state` / `db.get_model_state`.  The
`Database` class in `common/utils/database.py` defines neither method
(its api is `insert_phishing_incident`, `update_analysis_result`,
`get_analysis_result`, `cleanup`), so in the running program the
attribute lookup raises `AttributeError` inside the methods' `try`
blocks, the handler logs, and nothing is stored or restored.  Moreover,
even against a database that stored the blob, `_load_model_state` would
apply `torch.load` to the in-memory `state_dict` objects that
`_save_model_state` stored, which raises before any field is
restored. -/

/-- The checkpoint blob `_save_model_state` assembles. -/
structure ModelCheckpoint where
  epsilon : ℚ
  steps : ℕ
  episodes : ℕ

/-- `db.get_model_state('reinforcement_learning')`: the attribute does
    not exist on `Database`, so the call raises (modelled as `error`). -/
def db_get_model_state : Except Unit (Option ModelCheckpoint) :=
  Except.error ()

/-- `db.save_model_state('reinforcement_learning', model_state)`:
    the attribute does not exist on `Database`, so the call raises. -/
def db_save_model_state (_ : ModelCheckpoint) : Except Unit Unit :=
  Except.error ()

/-- `_save_model_state`: build the blob, attempt the store; the raised
    `AttributeError` is caught and logged.  Returns the durable store
    contents (before, after) — they are unchanged. -/
def _save_model_state (store : Option ModelCheckpoint) (s : AgentState) :
    Option ModelCheckpoint :=
  match db_save_model_state ⟨s.epsilon, s.steps, s.episodes⟩ with
  | Except.error _ => store
  | Except.ok _ => some ⟨s.epsilon, s.steps, s.episodes⟩

/-- `_load_model_state`: the `db.get_model_state` lookup raises inside
    the `try`, the handler logs, and the engine state is left as it
    was (no field of the checkpoint is ever applied). -/
def _load_model_state (s : AgentState) : AgentState :=
  match db_get_model_state with
  | Except.error _ => s
  | Except.ok none => s
  | Except.ok (some ck) =>
      { s with epsilon := ck.epsilon, steps := ck.steps, episodes := ck.episodes }

/-! ## Concrete instances used in witnesses and counterexamples -/

/-- A bag whose email values are present (authentication score 0.7) but
    whose domain block raises while being derived. -/
def bagDomainRaises : SignalBag :=
  { emptyBag with
    email_analysis := ⟨0, 7/10, 0, 0, 0, 0, false⟩
    domain_analysis := ⟨0, 0, 0, false, true⟩ }

/-- A bag whose only failing block is the user-context block. -/
def bagUserRaises : SignalBag :=
  { emptyBag with user_context := ⟨0, false, true⟩ }

/-- A benign per-incident environment, except that the database update
    raises: empty signal bags, zero draws (`r = 0` takes the random
    branch), no other failures. -/
def envBenign : ProcessEnv :=
  { data := emptyBag
    r := 0
    k := 1
    outcome := ⟨Status.other, false, false, Feedback.other, 0⟩
    outcomeBag := emptyBag
    sampleBatch := id
    gradStep := id
    trainRaises := false
    dbUpdateRaises := true }

/-- The benign environment with the database update succeeding. -/
def envOk : ProcessEnv := { envBenign with dbUpdateRaises := false }

/-! ## Helper lemmas -/

/-- `process` computes its final state by the four per-line steps. -/
theorem process_fst (env : ProcessEnv) (s : AgentState) :
    (process env s).1 = afterSync (afterSteps (afterTrain env (afterMemory env s))) := by
  unfold process
  split <;> rfl

/-- `_train` never touches the target network. -/
theorem _train_target_net (env : ProcessEnv) (s : AgentState) :
    (_train env s).target_net = s.target_net := by
  unfold _train
  split
  · rfl
  · split <;> rfl

/-- `_train` never touches the step counter. -/
theorem _train_steps (env : ProcessEnv) (s : AgentState) :
    (_train env s).steps = s.steps := by
  unfold _train
  split
  · rfl
  · split <;> rfl

/-- The conditional training step never touches the target network. -/
theorem afterTrain_target_net (env : ProcessEnv) (s : AgentState) :
    (afterTrain env s).target_net = s.target_net := by
  unfold afterTrain
  split
  · exact _train_target_net env s
  · rfl

/-- The conditional training step never touches the step counter. -/
theorem afterTrain_steps (env : ProcessEnv) (s : AgentState) :
    (afterTrain env s).steps = s.steps := by
  unfold afterTrain
  split
  · exact _train_steps env s
  · rfl

/-- The conditional target sync never touches epsilon. -/
theorem afterSync_epsilon (s : AgentState) : (afterSync s).epsilon = s.epsilon := by
  unfold afterSync
  split <;> rfl

/-- Invariant of the first-argmax fold: the accumulator either survives
    or is replaced by a strictly larger enumerated element; the result
    dominates every scanned element, strictly dominates everything left
    of its own position, and records its own value. -/
theorem argmax_fold_inv (t : List ℚ) :
    ∀ (n b : ℕ) (v : ℚ), b < n →
    (let R := (List.enumFrom n t).foldl
        (fun best cur => if cur.2 > best.2 then (cur.1, cur.2) else best) (b, v)
     (R = (b, v) ∨ ∃ j, j < t.length ∧ R = (n + j, t.getD j 0) ∧ v < R.2)
     ∧ (∀ j, j < t.length → t.getD j 0 ≤ R.2)
     ∧ (∀ j, j < t.length → n + j < R.1 → t.getD j 0 < R.2)
     ∧ v ≤ R.2) := by
  induction t with
  | nil =>
      intro n b v hbn
      refine ⟨Or.inl rfl, ?_, ?_, le_refl v⟩
      · intro j hj; simp at hj
      · intro j hj; simp at hj
  | cons a t ih =>
      intro n b v hbn
      simp only [List.enumFrom, List.foldl_cons]
      by_cases hav : a > v
      · rw [if_pos hav]
        obtain ⟨h1, h2, h3, h4⟩ := ih (n + 1) n a (Nat.lt_succ_self n)
        refine ⟨?_, ?_, ?_, ?_⟩
        · rcases h1 with h | ⟨j, hj, hR, hlt⟩
          · refine Or.inr ⟨0, by simp, ?_, ?_⟩
            · rw [h]; rfl
            · rw [h]; exact hav
          · refine Or.inr ⟨j + 1, by simpa using hj, ?_, lt_trans hav hlt⟩
            rw [hR]
            have hn : n + 1 + j = n + (j + 1) := by omega
            rw [hn, List.getD_cons_succ]
        · intro j hj
          match j with
          | 0 => simpa using h4
          | j + 1 => exact h2 j (by simpa using hj)
        · intro j hj hR1
          match j with
          | 0 =>
              simp only [List.getD_cons_zero]
              rcases h1 with h | ⟨j', hj', hR, hlt⟩
              · exfalso
                have hfst :
                    ((List.enumFrom (n + 1) t).foldl
                      (fun best cur => if cur.2 > best.2 then (cur.1, cur.2) else best)
                      (n, a)).1 = n := by rw [h]
                omega
              · exact hlt
          | j + 1 => exact h3 j (by simpa using hj) (by omega)
        · exact le_trans (le_of_lt hav) h4
      · rw [if_neg hav]
        push_neg at hav
        obtain ⟨h1, h2, h3, h4⟩ := ih (n + 1) b v (by omega)
        refine ⟨?_, ?_, ?_, ?_⟩
        · rcases h1 with h | ⟨j, hj, hR, hlt⟩
          · exact Or.inl h
          · refine Or.inr ⟨j + 1, by simpa using hj, ?_, hlt⟩
            rw [hR]
            have hn : n + 1 + j = n + (j + 1) := by omega
            rw [hn, List.getD_cons_succ]
        · intro j hj
          match j with
          | 0 => simpa using le_trans hav h4
          | j + 1 => exact h2 j (by simpa using hj)
        · intro j hj hR1
          match j with
          | 0 =>
              simp only [List.getD_cons_zero]
              rcases h1 with h | ⟨j', hj', hR, hlt⟩
              · exfalso
                have hfst :
                    ((List.enumFrom (n + 1) t).foldl
                      (fun best cur => if cur.2 > best.2 then (cur.1, cur.2) else best)
                      (b, v)).1 = b := by rw [h]
                omega
              · exact lt_of_le_of_lt hav hlt
          | j + 1 => exact h3 j (by simpa using hj) (by omega)
        · exact h4

/-- `argmaxFirst` on a nonempty list returns an in-range index whose
    value is a maximum, and every strictly earlier entry is strictly
    smaller (first-maximum tie-breaking). -/
theorem argmaxFirst_spec (l : List ℚ) (h : l ≠ []) :
    argmaxFirst l < l.length
    ∧ (∀ j, j < l.length → l.getD j 0 ≤ l.getD (argmaxFirst l) 0)
    ∧ (∀ j, j < argmaxFirst l → l.getD j 0 < l.getD (argmaxFirst l) 0) := by
  match l with
  | a :: t =>
    set R := (List.enumFrom 1 t).foldl
        (fun best cur => if cur.2 > best.2 then (cur.1, cur.2) else best) (0, a) with hRdef
    have step0 : argmaxFirst (a :: t) = R.1 := by
      unfold argmaxFirst
      simp [List.enum, List.enumFrom, lt_irrefl, hRdef]
    obtain ⟨h1, h2, h3, h4⟩ := argmax_fold_inv t 1 0 a Nat.zero_lt_one
    rw [← hRdef] at h1 h2 h3 h4
    have hval : (a :: t).getD R.1 0 = R.2 := by
      rcases h1 with h' | ⟨j, hj, hRj, _⟩
      · rw [h']; rfl
      · rw [hRj]
        have hn : 1 + j = j + 1 := by omega
        rw [hn, List.getD_cons_succ]
    have hA : R.1 < t.length + 1 := by
      rcases h1 with h' | ⟨j, hj, hRj, _⟩
      · rw [h']; omega
      · rw [hRj]
        show 1 + j < t.length + 1
        omega
    refine ⟨?_, ?_, ?_⟩
    · rw [step0]
      exact hA
    · intro j hj
      rw [step0, hval]
      match j with
      | 0 => simpa using h4
      | j + 1 => exact h2 j (by simpa using hj)
    · intro j hj
      rw [step0] at hj
      rw [step0, hval]
      match j with
      | 0 =>
          simp only [List.getD_cons_zero]
          rcases h1 with h' | ⟨j', hj', hRj, hlt⟩
          · exfalso
            have hfst : R.1 = 0 := by rw [h']
            omega
          · exact hlt
      | j + 1 => exact h3 j (by omega) (by omega)

/-- Length of a single deque append: grows by one below capacity, stays
    at capacity otherwise. -/
theorem dequePush_length (C : ℕ) (hC : 0 < C) (mem : List Experience) (e : Experience) :
    (dequePush C mem e).length
      = if mem.length < C then mem.length + 1 else C := by
  unfold dequePush
  split
  · simp
  · simp only [List.length_append, List.length_drop, List.length_singleton]
    omega

/-- Pushing any sequence into a deque never leaves more than `C`
    elements, provided the starting contents fit. -/
theorem dequePushAll_length_le (C : ℕ) (hC : 0 < C) :
    ∀ (pushes mem : List Experience), mem.length ≤ C →
      (dequePushAll C mem pushes).length ≤ C := by
  intro pushes
  induction pushes with
  | nil => intro mem h; exact h
  | cons a t ih =>
      intro mem h
      have hstep : dequePushAll C mem (a :: t) = dequePushAll C (dequePush C mem a) t := rfl
      rw [hstep]
      refine ih (dequePush C mem a) ?_
      rw [dequePush_length C hC mem a]
      split <;> omega

/-- Below joint capacity, deque pushes are plain appends. -/
theorem dequePushAll_of_le (C : ℕ) :
    ∀ (t mem : List Experience), mem.length + t.length ≤ C →
      dequePushAll C mem t = mem ++ t := by
  intro t
  induction t with
  | nil => intro mem _; simp [dequePushAll]
  | cons a t ih =>
      intro mem h
      have hstep : dequePushAll C mem (a :: t) = dequePushAll C (dequePush C mem a) t := rfl
      have hlt : mem.length < C := by simp at h; omega
      have hp : dequePush C mem a = mem ++ [a] := by unfold dequePush; rw [if_pos hlt]
      rw [hstep, hp, ih (mem ++ [a]) (by simp at h ⊢; omega)]
      simp

/-- Folding over a final singleton is one more push. -/
theorem dequePushAll_concat (C : ℕ) (mem t : List Experience) (b : Experience) :
    dequePushAll C mem (t ++ [b]) = dequePush C (dequePushAll C mem t) b := by
  simp [dequePushAll, List.foldl_append]

/-! ## Claim theorems -/

/-- C4: for every outcome record, `_calculate_reward` is the sum of the
    independent applicable terms (+1.0 success / -1.0 failed, +2.0
    prevented_attack, -2.0 false_positive, ±0.5 user feedback, -0.1 when
    processing time exceeds 60 seconds); in particular
    `reward({status: success, prevented_attack: true}) = 3.0`,
    `reward({status: failed, false_positive: true}) = -3.0`, and
    `reward({status: success}) = 1.0`. -/
theorem reward_is_sum_of_independent_terms :
    (∀ result : ActionResult, _calculate_reward result = rewardTermSum result)
    ∧ _calculate_reward ⟨Status.success, true, false, Feedback.other, 0⟩ = 3
    ∧ _calculate_reward ⟨Status.failed, false, true, Feedback.other, 0⟩ = -3
    ∧ _calculate_reward ⟨Status.success, false, false, Feedback.other, 0⟩ = 1 := by
  refine ⟨fun result => ?_, by simp [_calculate_reward] <;> norm_num,
    by simp [_calculate_reward] <;> norm_num, by simp [_calculate_reward] <;> norm_num⟩
  rcases result with ⟨st, pa, fp, uf, pt⟩
  cases st <;> cases pa <;> cases fp <;> cases uf <;>
    simp [_calculate_reward, rewardTermSum] <;>
    split <;> norm_num

/-- C5: pushing into the replay deque of capacity `C` (the source
    default is `memory_size = 10000`) never leaves more than `C`
    elements, and pushing `C + 1` experiences into an empty memory keeps
    exactly the later `C` of them: the earliest-inserted experience is
    evicted (FIFO) and, unless re-inserted later, is no longer
    retrievable; the final size is `C`. -/
theorem replay_memory_bounded_and_fifo (C : ℕ) (hC : 0 < C)
    (a : Experience) (t : List Experience) (ht : t.length = C) :
    memory_size = 10000
    ∧ (∀ pushes : List Experience, (dequePushAll C [] pushes).length ≤ C)
    ∧ dequePushAll C [] (a :: t) = t
    ∧ (dequePushAll C [] (a :: t)).length = C
    ∧ (a ∉ t → a ∉ dequePushAll C [] (a :: t)) := by
  have key : dequePushAll C [] (a :: t) = t := by
    have hne : t ≠ [] := by
      intro h0
      rw [h0] at ht
      simp at ht
      omega
    obtain ⟨t₁, b, rfl⟩ := t.eq_nil_or_concat'.resolve_left hne
    have ht₁ : t₁.length + 1 = C := by simpa using ht
    have hpa : dequePush C [] a = [a] := by
      unfold dequePush
      rw [if_pos (by simpa using hC)]
      rfl
    have hstep : dequePushAll C [] (a :: (t₁ ++ [b]))
        = dequePushAll C (dequePush C [] a) (t₁ ++ [b]) := rfl
    rw [hstep, hpa, dequePushAll_concat C [a] t₁ b,
      dequePushAll_of_le C t₁ [a]
        (by simp only [List.length_singleton]; omega)]
    have hfull : ¬(([a] ++ t₁).length < C) := by
      simp only [List.length_append, List.length_singleton]
      omega
    have hd : ([a] ++ t₁).length + 1 - C = 1 := by
      simp only [List.length_append, List.length_singleton]
      omega
    unfold dequePush
    rw [if_neg hfull, hd]
    simp
  refine ⟨rfl, fun pushes => dequePushAll_length_le C hC pushes [] (by simp), key, ?_, ?_⟩
  · rw [key, ht]
  · intro hmem
    rw [key]
    exact hmem

/-- C5 witness: a concrete run at capacity 2 with three distinct pushes. -/
theorem replay_memory_bounded_and_fifo_witness :
    dequePushAll 2 [] [⟨[], 0, 0, []⟩, ⟨[], 1, 0, []⟩, ⟨[], 2, 0, []⟩]
      = [⟨[], 1, 0, []⟩, ⟨[], 2, 0, []⟩]
    ∧ (⟨[], 0, 0, []⟩ : Experience) ∉
        dequePushAll 2 [] [⟨[], 0, 0, []⟩, ⟨[], 1, 0, []⟩, ⟨[], 2, 0, []⟩] := by
  obtain ⟨-, -, h3, -, h5⟩ :=
    replay_memory_bounded_and_fifo 2 (by decide)
      ⟨[], 0, 0, []⟩ [⟨[], 1, 0, []⟩, ⟨[], 2, 0, []⟩] (by decide)
  exact ⟨h3, h5 (by decide)⟩

/-- C8 counterexample: with `epsilon = 0.0` the guard
    `random.random() > epsilon` is *strict*, and `random.random()` can
    return exactly `0.0`; on that draw the random branch runs, so two
    runs on the same state with the same parameters can return
    different indices (here 1 and 2). -/
theorem select_action_zero_epsilon_not_deterministic :
    _select_action 0 0 1 zeroNet (fun _ => 0) = 1
    ∧ _select_action 0 0 2 zeroNet (fun _ => 0) = 2
    ∧ (1 : ℕ) ≠ 2 := by
  refine ⟨?_, ?_, by decide⟩ <;> simp [_select_action]

/-- C8 (amended): with `epsilon = 0.0`, on every draw `r > 0` of
    `random.random()` (all draws except the measure-zero exact `0.0`),
    `_select_action` is deterministic — independent of both random
    draws — and returns the argmax index of the policy network's
    output, ties broken by the lowest index: its value is maximal and
    every strictly earlier output is strictly smaller. -/
theorem select_action_zero_epsilon_greedy (net : DQN) (state : Fin state_size → ℚ)
    (r₁ r₂ : ℚ) (k₁ k₂ : ℕ) (h₁ : 0 < r₁) (h₂ : 0 < r₂) :
    _select_action 0 r₁ k₁ net state = _select_action 0 r₂ k₂ net state
    ∧ _select_action 0 r₁ k₁ net state = argmaxFirst (List.ofFn (net.forward state))
    ∧ (∀ j, j < action_size →
        (List.ofFn (net.forward state)).getD j 0
          ≤ (List.ofFn (net.forward state)).getD (_select_action 0 r₁ k₁ net state) 0)
    ∧ (∀ j, j < _select_action 0 r₁ k₁ net state →
        (List.ofFn (net.forward state)).getD j 0
          < (List.ofFn (net.forward state)).getD (_select_action 0 r₁ k₁ net state) 0) := by
  have hg : ∀ (r : ℚ) (k : ℕ), 0 < r →
      _select_action 0 r k net state = argmaxFirst (List.ofFn (net.forward state)) := by
    intro r k hr
    unfold _select_action
    rw [if_pos hr]
  have hne : List.ofFn (net.forward state) ≠ [] := by
    have : (List.ofFn (net.forward state)).length = action_size := List.length_ofFn _
    intro h0
    rw [h0] at this
    simp [action_size] at this
  obtain ⟨hlt, hmax, hfirst⟩ := argmaxFirst_spec (List.ofFn (net.forward state)) hne
  refine ⟨by rw [hg r₁ k₁ h₁, hg r₂ k₂ h₂], hg r₁ k₁ h₁, ?_, ?_⟩
  · intro j hj
    rw [hg r₁ k₁ h₁]
    exact hmax j (by simpa using hj)
  · intro j hj
    rw [hg r₁ k₁ h₁] at hj ⊢
    exact hfirst j hj

/-- C8 witness: the amended theorem applied at the zero network, the
    zero state and the positive draws 1/2 and 1. -/
theorem select_action_zero_epsilon_greedy_witness :
    _select_action 0 (1/2) 3 zeroNet (fun _ => 0)
      = _select_action 0 1 4 zeroNet (fun _ => 0) :=
  (select_action_zero_epsilon_greedy zeroNet (fun _ => 0) (1/2) 1 3 4
    (by norm_num) (by norm_num)).1

/-- C10: both branches of `_select_action` return an index in
    `[0, action_size)` (the random branch because `randrange(5)` draws
    below 5, the greedy branch because the argmax of the 5 network
    outputs is an in-range position); consequently the subsequent
    lookup `self.actions[action_idx]` always finds a key. -/
theorem select_action_index_in_range (epsilon r : ℚ) (k : ℕ) (net : DQN)
    (state : Fin state_size → ℚ) (hk : k < action_size) :
    _select_action epsilon r k net state < action_size
    ∧ (actions_map (_select_action epsilon r k net state)).isSome = true := by
  have hrange : _select_action epsilon r k net state < action_size := by
    unfold _select_action
    split
    · have hne : List.ofFn (net.forward state) ≠ [] := by
        have : (List.ofFn (net.forward state)).length = action_size := List.length_ofFn _
        intro h0
        rw [h0] at this
        simp [action_size] at this
      have h := (argmaxFirst_spec (List.ofFn (net.forward state)) hne).1
      simpa using h
    · exact hk
  refine ⟨hrange, ?_⟩
  have h5 : _select_action epsilon r k net state < 5 := hrange
  set n := _select_action epsilon r k net state with hn
  interval_cases n <;> rfl

/-- C10 witness: the theorem applied at concrete inputs (random branch
    draw `k = 3`). -/
theorem select_action_index_in_range_witness :
    _select_action 1 0 3 zeroNet (fun _ => 0) < action_size
    ∧ (actions_map (_select_action 1 0 3 zeroNet (fun _ => 0))).isSome = true :=
  select_action_index_in_range 1 0 3 zeroNet (fun _ => 0) (by decide)

/-- C2 counterexample: extraction failures are *not* isolated per
    block.  On a bag whose domain block raises while the email block
    carries a 0.7 authentication score, `_extract_state` zero-fills the
    *entire* vector — slot 1 is `0`, not the `0.7` the per-block-isolated
    reading (`encodeSpecIsolated`) predicts. -/
theorem state_extraction_not_isolated_per_block :
    _extract_state bagDomainRaises ≠ encodeSpecIsolated bagDomainRaises
    ∧ _extract_state bagDomainRaises = List.replicate state_size 0
    ∧ (encodeSpecIsolated bagDomainRaises).getD 1 0 = 7/10 := by
  refine ⟨?_, by rfl, by rfl⟩
  intro h
  have h1 : (_extract_state bagDomainRaises).getD 1 0
      = (encodeSpecIsolated bagDomainRaises).getD 1 0 := by rw [h]
  rw [show (_extract_state bagDomainRaises).getD 1 0 = 0 from by rfl,
    show (encodeSpecIsolated bagDomainRaises).getD 1 0 = 7/10 from by rfl] at h1
  norm_num at h1

/-- C2 (amended): extraction failure handling is all-or-nothing, not
    per-block: if an exception occurs while deriving values for *any*
    of the five blocks, the entire 20-slot state vector is zero-filled
    and the other blocks' values are discarded; only when no block
    raises do all five blocks contribute their values, and the result
    always has exactly `state_size` entries. -/
theorem state_extraction_all_or_nothing (bag : SignalBag) :
    ((bag.email_analysis.raises = true ∨ bag.domain_analysis.raises = true
      ∨ bag.threat_intelligence.raises = true ∨ bag.historical_data.raises = true
      ∨ bag.user_context.raises = true) →
        _extract_state bag = List.replicate state_size 0)
    ∧ (bag.email_analysis.raises = false → bag.domain_analysis.raises = false →
       bag.threat_intelligence.raises = false → bag.historical_data.raises = false →
       bag.user_context.raises = false →
        _extract_state bag
          = emailBlockVals bag.email_analysis
            ++ domainBlockVals bag.domain_analysis
            ++ threatBlockVals bag.threat_intelligence
            ++ histBlockVals bag.historical_data
            ++ userBlockVals bag.user_context)
    ∧ (_extract_state bag).length = state_size := by
  have hblocklen :
      (emailBlockVals bag.email_analysis
        ++ domainBlockVals bag.domain_analysis
        ++ threatBlockVals bag.threat_intelligence
        ++ histBlockVals bag.historical_data
        ++ userBlockVals bag.user_context).length = state_size := by
    simp [emailBlockVals, domainBlockVals, threatBlockVals, histBlockVals,
      userBlockVals, state_size]
  have herr : ∀ hb : extractBlocks bag = Except.error (),
      _extract_state bag = List.replicate state_size 0 := by
    intro hb
    unfold _extract_state
    rw [hb]
  have hok : ∀ l, extractBlocks bag = Except.ok l → _extract_state bag = padTruncate l := by
    intro l hb
    unfold _extract_state
    rw [hb]
  refine ⟨?_, ?_, ?_⟩
  · intro hraise
    refine herr ?_
    unfold extractBlocks
    rcases hraise with h | h | h | h | h <;> rw [h] <;> simp
  · intro he hd ht hh hu
    have hb : extractBlocks bag
        = Except.ok (emailBlockVals bag.email_analysis
            ++ domainBlockVals bag.domain_analysis
            ++ threatBlockVals bag.threat_intelligence
            ++ histBlockVals bag.historical_data
            ++ userBlockVals bag.user_context) := by
      unfold extractBlocks
      rw [he, hd, ht, hh, hu]
      simp
    rw [hok _ hb]
    unfold padTruncate
    rw [hblocklen]
    simp
  · cases he : bag.email_analysis.raises
    case true =>
      rw [herr (by unfold extractBlocks; rw [he]; simp)]
      simp
    case false =>
      cases hd : bag.domain_analysis.raises
      case true =>
        rw [herr (by unfold extractBlocks; rw [he, hd]; simp)]
        simp
      case false =>
        cases ht : bag.threat_intelligence.raises
        case true =>
          rw [herr (by unfold extractBlocks; rw [he, hd, ht]; simp)]
          simp
        case false =>
          cases hh : bag.historical_data.raises
          case true =>
            rw [herr (by unfold extractBlocks; rw [he, hd, ht, hh]; simp)]
            simp
          case false =>
            cases hu : bag.user_context.raises
            case true =>
              rw [herr (by unfold extractBlocks; rw [he, hd, ht, hh, hu]; simp)]
              simp
            case false =>
              have hb : extractBlocks bag
                  = Except.ok (emailBlockVals bag.email_analysis
                      ++ domainBlockVals bag.domain_analysis
                      ++ threatBlockVals bag.threat_intelligence
                      ++ histBlockVals bag.historical_data
                      ++ userBlockVals bag.user_context) := by
                unfold extractBlocks
                rw [he, hd, ht, hh, hu]
                simp
              rw [hok _ hb]
              unfold padTruncate
              rw [hblocklen]
              simp [emailBlockVals, domainBlockVals, threatBlockVals,
                histBlockVals, userBlockVals, state_size]

/-- C2 witness: the amended theorem applied to a bag whose user-context
    block raises — the whole vector is zeroed — and to the all-defaults
    bag — all blocks contribute. -/
theorem state_extraction_all_or_nothing_witness :
    _extract_state bagUserRaises = List.replicate state_size 0
    ∧ _extract_state emptyBag
        = emailBlockVals emptyBag.email_analysis
          ++ domainBlockVals emptyBag.domain_analysis
          ++ threatBlockVals emptyBag.threat_intelligence
          ++ histBlockVals emptyBag.historical_data
          ++ userBlockVals emptyBag.user_context :=
  ⟨(state_extraction_all_or_nothing bagUserRaises).1
      (Or.inr (Or.inr (Or.inr (Or.inr rfl)))),
   (state_extraction_all_or_nothing emptyBag).2.1 rfl rfl rfl rfl rfl⟩

/-- The elementwise content of `_train`'s loss pipeline: the list of
    squared errors it builds is the per-experience TD squared error. -/
theorem trainBatch_numerator (policy_net target_net : DQN) :
    ∀ batch : List Experience,
      List.zipWith (fun c e => (c - e)^2)
        (List.zipWith (fun s a => (List.ofFn (policy_net.forward s)).getD a 0)
          (batch.map (fun exp => toStateVec exp.state))
          (batch.map (fun exp => exp.action)))
        (List.zipWith (fun r nq => r + gamma * nq)
          (batch.map (fun exp => exp.reward))
          ((batch.map (fun exp => toStateVec exp.next_state)).map
            (fun s => rowMax (target_net.forward s))))
      = batch.map (tdSquaredError policy_net target_net) := by
  intro batch
  induction batch with
  | nil => rfl
  | cons e tl ih =>
      simp only [List.map_cons, List.zipWith_cons_cons]
      rw [ih]
      simp [tdSquaredError, tdTarget]

/-- C6: the loss `_train` computes over a sampled batch is exactly the
    mean over the batch of the squared difference between
    `PolicyFunction(state)[action]` and the TD target
    `reward + gamma * max_a(TargetFunction(next_state))`. -/
theorem train_loss_is_batched_mse_of_td_targets (policy_net target_net : DQN)
    (batch : List Experience) :
    trainBatchLoss policy_net target_net batch
      = (batch.map (tdSquaredError policy_net target_net)).sum / (batch.length : ℚ) := by
  have hnum := trainBatch_numerator policy_net target_net batch
  unfold trainBatchLoss
  dsimp only
  rw [hnum]

/-- C3: the checkpoint round-trip does not restore anything.  The
    `Database` utility has no `get_model_state`/`save_model_state`
    attribute, so `_save_model_state` leaves the durable store untouched
    and `_load_model_state` is the identity on the engine state: a fresh
    engine that loads after a save of `{epsilon := 1/2, steps := 7,
    episodes := 2}` still has the cold-start `epsilon = 1`,
    `steps = 0`, `episodes = 0`. -/
theorem checkpoint_roundtrip_restores_nothing :
    (∀ s : AgentState, _load_model_state s = s)
    ∧ (∀ (store : Option ModelCheckpoint) (s : AgentState), _save_model_state store s = store)
    ∧ _save_model_state none
        { initialAgentState with epsilon := 1/2, steps := 7, episodes := 2 } = none
    ∧ (_load_model_state initialAgentState).epsilon = 1
    ∧ (_load_model_state initialAgentState).steps = 0
    ∧ (_load_model_state initialAgentState).episodes = 0
    ∧ ((1 : ℚ)/2 ≠ 1) := by
  exact ⟨fun s => rfl, fun store s => rfl, rfl, rfl, rfl, rfl, by norm_num⟩

/-- C1 counterexample: one `process` call on the cold engine calls
    `_select_action` (the response records action index 1, the `k`
    draw), yet `epsilon` is still `1` afterwards, not
    `max(0.01, 1 * 0.995) = 0.995`: no decay happened for this
    incident because no training step ran. -/
theorem epsilon_unchanged_after_select_action :
    (process envOk initialAgentState).1.epsilon = 1
    ∧ (incidentExperience envOk initialAgentState).action = 1
    ∧ (process envOk initialAgentState).1.steps = 1
    ∧ max epsilon_min ((1 : ℚ) * epsilon_decay) ≠ 1 := by
  refine ⟨by rfl, by rfl, by rfl, by norm_num [epsilon_min, epsilon_decay]⟩

/-- C1 (amended): `epsilon = max(floor, epsilon * decay_rate)` is
    applied once per *successful training step* (the last statement of
    `_train`), not after every `_select_action` call: an incident whose
    post-push memory is below `min_experiences` leaves `epsilon`
    untouched, and an incident that trains (memory at least
    `min_experiences` after the push, no training exception) applies
    exactly one decay. -/
theorem epsilon_decays_once_per_training_step (env : ProcessEnv) (s : AgentState) :
    (s.memory.length + 1 < min_experiences →
        (process env s).1.epsilon = s.epsilon)
    ∧ (min_experiences ≤ s.memory.length + 1 → env.trainRaises = false →
        (process env s).1.epsilon = max epsilon_min (s.epsilon * epsilon_decay)) := by
  have heps : (process env s).1.epsilon = (afterTrain env (afterMemory env s)).epsilon := by
    rw [process_fst, afterSync_epsilon]
    rfl
  have hlen : (afterMemory env s).memory.length
      = if s.memory.length < memory_size then s.memory.length + 1 else memory_size := by
    show (dequePush memory_size s.memory (incidentExperience env s)).length = _
    exact dequePush_length memory_size (by norm_num [memory_size]) s.memory _
  constructor
  · intro h
    rw [heps]
    unfold afterTrain
    rw [if_neg ?hcond]
    case hcond =>
      rw [hlen]
      have h' : s.memory.length + 1 < 1000 := h
      have hlt : s.memory.length < memory_size := by
        show s.memory.length < 10000
        omega
      rw [if_pos hlt]
      show ¬ s.memory.length + 1 ≥ 1000
      omega
    rfl
  · intro h htr
    rw [heps]
    unfold afterTrain
    rw [if_pos ?hcond2]
    case hcond2 =>
      rw [hlen]
      have h' : 1000 ≤ s.memory.length + 1 := h
      split
      · exact h'
      · show memory_size ≥ min_experiences
        norm_num [memory_size, min_experiences]
    unfold _train
    rw [if_neg (by rw [htr]; exact Bool.false_ne_true)]
    rw [if_neg ?hbs]
    case hbs =>
      rw [hlen]
      have h' : 1000 ≤ s.memory.length + 1 := h
      split
      · show ¬ s.memory.length + 1 < 64
        omega
      · show ¬ memory_size < batch_size
        norm_num [memory_size, batch_size]
    rfl

/-- C1 witness: part one of the amended theorem at the cold engine
    (memory far below `min_experiences`), via the theorem itself. -/
theorem epsilon_decays_once_per_training_step_witness :
    (process envOk initialAgentState).1.epsilon = initialAgentState.epsilon :=
  (epsilon_decays_once_per_training_step envOk initialAgentState).1 (by decide)

/-- C7: after a `process` call whose incremented step counter is a
    multiple of `update_frequency`, the target network parameters equal
    the (post-training) policy network parameters — a value copy — and
    after any other `process` call the target network is exactly what it
    was before the call, even though training may have changed the
    policy network. -/
theorem target_net_sync_every_update_frequency (env : ProcessEnv) (s : AgentState) :
    ((s.steps + 1) % update_frequency = 0 →
        (process env s).1.target_net = (process env s).1.policy_net)
    ∧ ((s.steps + 1) % update_frequency ≠ 0 →
        (process env s).1.target_net = s.target_net) := by
  have hsteps : (afterSteps (afterTrain env (afterMemory env s))).steps = s.steps + 1 := by
    show (afterTrain env (afterMemory env s)).steps + 1 = s.steps + 1
    rw [afterTrain_steps]
    rfl
  constructor
  · intro h
    rw [process_fst]
    unfold afterSync
    rw [hsteps, if_pos h]
  · intro h
    rw [process_fst]
    unfold afterSync
    rw [hsteps, if_neg h]
    show (afterTrain env (afterMemory env s)).target_net = s.target_net
    rw [afterTrain_target_net]
    rfl

/-- C7 witness: the theorem applied at steps = 99 (sync: 100 % 100 = 0)
    and at the cold engine (no sync: 1 % 100 ≠ 0). -/
theorem target_net_sync_every_update_frequency_witness :
    (process envOk { initialAgentState with steps := 99 }).1.target_net
      = (process envOk { initialAgentState with steps := 99 }).1.policy_net
    ∧ (process envOk initialAgentState).1.target_net = initialAgentState.target_net :=
  ⟨(target_net_sync_every_update_frequency envOk
      { initialAgentState with steps := 99 }).1 (by decide),
   (target_net_sync_every_update_frequency envOk initialAgentState).2 (by decide)⟩

/-- C9 counterexample: a failure of `db.update_analysis_result` reaches
    `process`'s top-level handler, which logs via `handle_error` and
    then *re-raises* (`raise` on line 149): the exception propagates out
    of the engine instead of degrading to a skipped cycle. -/
theorem process_propagates_db_failure :
    (process envBenign initialAgentState).2 = Except.error ProcError.dbError := by
  rfl

/-- C9 (amended): failures in state extraction, action dispatch and
    training are contained inside their own handlers (`process` still
    returns a response), but `process` is *not* exception-free: an
    exception raised by a statement of its `try` body that has no inner
    handler — modelled by the `db.update_analysis_result` store — is
    re-raised out of the engine after being logged. -/
theorem process_raises_iff_unhandled_statement_raises (env : ProcessEnv) (s : AgentState) :
    (env.dbUpdateRaises = false → ∃ resp, (process env s).2 = Except.ok resp)
    ∧ (env.dbUpdateRaises = true → (process env s).2 = Except.error ProcError.dbError) := by
  constructor
  · intro h
    unfold process
    dsimp only
    rw [h]
    exact ⟨_, rfl⟩
  · intro h
    unfold process
    dsimp only
    rw [h]
    rfl

/-- C9 witness: both directions of the amended theorem at concrete
    environments. -/
theorem process_raises_iff_unhandled_statement_raises_witness :
    (∃ resp, (process envOk initialAgentState).2 = Except.ok resp)
    ∧ (process { envOk with trainRaises := true, dbUpdateRaises := true }
        initialAgentState).2 = Except.error ProcError.dbError :=
  ⟨(process_raises_iff_unhandled_statement_raises envOk initialAgentState).1 rfl,
   (process_raises_iff_unhandled_statement_raises
      { envOk with trainRaises := true, dbUpdateRaises := true } initialAgentState).2 rfl⟩

end PhishGuard
